import Mathlib

/-!
Verification of the QR-Attendance-Check repository.

Shallow embedding of the source files:
* `src/server.js` — token issuance (`GET /api/qr`), attendance ingestion
  (`POST /api/qr`) and the bounded in-memory log `ATTEND_LOG`.
* `src/unnamed/part_000` (the session-key generator page script) —
  `buildPayload`, `makeLocalToken`, `syncServerTime`, `calculateMeanStd`,
  `calculateRobustMean` and the aggregation / suspicion scoring part of
  `refreshAttendLog`.

JavaScript numbers are modelled as exact rationals (`ℚ`) where the code only
adds, subtracts, divides and rounds, and as real numbers (`ℝ`) where
`Math.sqrt` is involved.  Byte buffers are modelled as `List ℕ` with every
element below 256.
-/

/-! ### Suspicion scorer (src/unnamed/part_000, lines 350-380) -/

/-- Embeds the suspicion-rate computation of `refreshAttendLog`:
`let suspectRate = 0; if (globalStd > 0) { ... }` with the 50 ms dead-zone and
the tiered z-score curve.  `Math.round` on a JavaScript number is
`round : ℚ → ℤ` (round half toward +∞ in both). -/
def suspectRate (studentAvg globalMean globalStd : ℚ) : ℤ :=
  if 0 < globalStd then
    let diff := studentAvg - globalMean
    let absDiff := |diff|
    if absDiff ≤ 50 then 0
    else
      let zScore := |diff / globalStd|
      if zScore < 1 then 0
      else if zScore < 2 then round (30 + (zScore - 1) * 40)
      else if zScore < 3 then round (70 + (zScore - 2) * 25)
      else round (95 + min ((zScore - 3) * 5) 5)
  else 0

/-! ### Clock sync estimator (src/unnamed/part_000, lines 91-110) -/

/-- Embeds `syncServerTime`.  The probe is `some serverTime` when the fetch
and JSON parse succeed (with `t0` and `t3` the local clock readings around the
request) and `none` on a network/parse error, in which case the catch block
sets the offset to 0. -/
def syncServerTime (probe : Option ℚ) (t0 t3 : ℚ) : ℚ :=
  match probe with
  | some serverTime =>
      let rtt := t3 - t0
      let clientAtServerStamp := t0 + rtt / 2
      serverTime - clientAtServerStamp
  | none => 0

/-! ### Payload codec (src/unnamed/part_000 lines 55-73; src/server.js lines 81-93) -/

/-- Embeds `(nowMs & 0xffffffff) >>> 0`.  JavaScript coerces both operands of
`&` to 32-bit two's complement, ANDs them, and `>>> 0` reinterprets the result
as unsigned; on unsigned 32-bit representatives that composite is exactly
`Nat.land (nowMs % 2^32) 0xffffffff`. -/
def tsLowOf (nowMs : ℕ) : ℕ :=
  Nat.land (nowMs % 2 ^ 32) 0xffffffff

/-- Embeds `payload.writeUInt32BE` / `view.setUint32(_, _, false)`: the four
big-endian bytes of a 32-bit value. -/
def writeUInt32BE (n : ℕ) : List ℕ :=
  [n / 2 ^ 24 % 256, n / 2 ^ 16 % 256, n / 2 ^ 8 % 256, n % 256]

/-- Embeds `buildPayload` (and the identical payload construction inside the
server's `GET /api/qr` handler): version byte, big-endian low 32 bits of the
timestamp, room-code byte, then the 4 random nonce bytes (passed here as an
argument, since the code draws them from a CSPRNG). -/
def buildPayload (nowMs : ℕ) (nonce : List ℕ) : List ℕ :=
  let version : ℕ := 1
  let tsLow := tsLowOf nowMs
  let roomCode : ℕ := 1
  [version] ++ writeUInt32BE tsLow ++ [roomCode] ++ nonce

/-- Big-endian decoding of a byte list, used to state what the 4 bytes at
offsets 1..4 of the payload represent. -/
def beDecode (bs : List ℕ) : ℕ :=
  bs.foldl (fun acc b => acc * 256 + b) 0

/-! ### Base64 and the two token envelopes (src/server.js lines 95-102;
src/unnamed/part_000 lines 75-88 and 121-149) -/

/-- The base64 alphabet shared by `Buffer.toString("base64")` and `btoa`. -/
def b64Chars : List Char :=
  "ABCDEFGHIJKLMNOPQRSTUVWXYZabcdefghijklmnopqrstuvwxyz0123456789+/".toList

/-- Character for one 6-bit base64 digit. -/
def b64Char (n : ℕ) : Char :=
  b64Chars.getD n 'A'

/-- Standard base64 encoding (with `=` padding) of a byte list, as performed
by `combined.toString("base64")` on the server and by `btoa` in the browser. -/
def base64Encode : List ℕ → List Char
  | [] => []
  | [a] => [b64Char (a / 4), b64Char (a % 4 * 16), '=', '=']
  | [a, b] => [b64Char (a / 4), b64Char (a % 4 * 16 + b / 16), b64Char (b % 16 * 4), '=']
  | a :: b :: c :: rest =>
      b64Char (a / 4) :: b64Char (a % 4 * 16 + b / 16) ::
        b64Char (b % 16 * 4 + c / 64) :: b64Char (c % 64) :: base64Encode rest

/-- Embeds `bytesToBase64` (a manual `btoa` over a binary string). -/
def bytesToBase64 (bytes : List ℕ) : List Char :=
  base64Encode bytes

/-- Embeds `concatUint8Arrays`. -/
def concatUint8Arrays (a b : List ℕ) : List ℕ :=
  a ++ b

/-- Modelled from the spec: the WebCrypto `crypto.subtle.encrypt` AES-GCM
primitive used by `makeLocalToken` is not part of the repository; per the
spec, "the authentication tag is appended to ciphertext by the underlying
primitive", so its output is `ciphertext ++ authTag`. -/
def subtleEncryptOutput (ciphertext authTag : List ℕ) : List ℕ :=
  ciphertext ++ authTag

/-- Embeds the browser token construction in `makeLocalToken`:
`combined = concatUint8Arrays(iv, ciphertext)` where `ciphertext` is the
WebCrypto output (tag appended), then `bytesToBase64`. -/
def makeLocalToken (iv ciphertext authTag : List ℕ) : List Char :=
  bytesToBase64 (concatUint8Arrays iv (subtleEncryptOutput ciphertext authTag))

/-- Embeds the server token construction in the `GET /api/qr` handler:
`combined = Buffer.concat([iv, authTag, ciphertext])` then base64. -/
def serverQrToken (iv authTag ciphertext : List ℕ) : List Char :=
  base64Encode (iv ++ authTag ++ ciphertext)

/-! ### Attendance log (src/server.js lines 19-20 and 115-152) -/

/-- One entry of `ATTEND_LOG`, as pushed by the `POST /api/qr` handler. -/
structure AttendEntry where
  id : ℕ
  logTime : String
  ip : String
  studentId : String
  cipher : String
  serverRecvTs : ℚ
deriving DecidableEq

/-- The per-request data of one accepted `POST /api/qr` call (everything of
an entry except the log-assigned sequence id). -/
structure ScanInput where
  logTime : String
  ip : String
  studentId : String
  cipher : String
  serverRecvTs : ℚ
deriving DecidableEq

/-- `MAX_ATTEND_LOG` from src/server.js line 20. -/
def MAX_ATTEND_LOG : ℕ := 500

/-- Embeds lines 134-144 of src/server.js: push an entry whose id is
`ATTEND_LOG.length + 1`, then `splice(0, length - MAX_ATTEND_LOG)` when the
cap is exceeded (`splice(0, k)` removes the first `k` elements, i.e.
`List.drop k`). -/
def pushAttendLog (log : List AttendEntry) (r : ScanInput) : List AttendEntry :=
  let log' := log ++ [⟨log.length + 1, r.logTime, r.ip, r.studentId, r.cipher, r.serverRecvTs⟩]
  if MAX_ATTEND_LOG < log'.length then log'.drop (log'.length - MAX_ATTEND_LOG) else log'

/-- Response of the `POST /api/qr` handler: either the 400
`{ ok: false, error: "invalid_request" }` body or the
`{ ok: true, studentId, serverRecvTs, cipher }` body. -/
inductive PostResponse where
  | invalidRequest
  | ok (studentId : String) (serverRecvTs : ℚ) (cipher : String)
deriving DecidableEq

/-- Embeds the whole `POST /api/qr` handler (src/server.js lines 115-152).
`cipher`/`studentId` are `none` when the field is absent from the request
body; the JavaScript guard `if (!cipher || !studentId)` is falsy exactly on
an absent field or an empty string. -/
def postQr (log : List AttendEntry) (cipher studentId : Option String)
    (ip logTime : String) (now : ℚ) : PostResponse × List AttendEntry :=
  match cipher, studentId with
  | some c, some s =>
      if c = "" ∨ s = "" then (PostResponse.invalidRequest, log)
      else (PostResponse.ok s now c, pushAttendLog log ⟨logTime, ip, s, c, now⟩)
  | _, _ => (PostResponse.invalidRequest, log)

/-- The log obtained by replaying a sequence of accepted scans onto the empty
`ATTEND_LOG`. -/
def logOf (rows : List ScanInput) : List AttendEntry :=
  rows.foldl pushAttendLog []

/-- Forgets the log-assigned id of an entry, recovering the request data. -/
def AttendEntry.toInput (e : AttendEntry) : ScanInput :=
  ⟨e.logTime, e.ip, e.studentId, e.cipher, e.serverRecvTs⟩

/-! ### Delta aggregation (src/unnamed/part_000, lines 298-315) -/

/-- `Map.get` on the session's `tokenCreatedAt` map, modelled as association
list lookup (the map's keys are unique, so first match is the match). -/
def mapGet (m : List (String × ℚ)) (k : String) : Option ℚ :=
  (m.find? (fun p => p.1 = k)).map (·.2)

/-- Embeds the `studentData` get-or-create plus `student.deltas.push(delta)`
step: a JavaScript `Map` keeps keys in insertion order, and each student's
delta list grows at its end. -/
def addDelta (acc : List (String × List ℚ)) (sid : String) (d : ℚ) :
    List (String × List ℚ) :=
  if acc.any (fun p => p.1 = sid) then
    acc.map (fun p => if p.1 = sid then (p.1, p.2 ++ [d]) else p)
  else acc ++ [(sid, [d])]

/-- Embeds the aggregation loop of `refreshAttendLog` (lines 298-315):
`const createdAt = tokenCreatedAt.get(row.cipher); if (!createdAt) continue;`
— note that the falsy test skips both a missing key and a recorded creation
time of `0` — then `delta = row.serverRecvTs - createdAt; if (delta < 0)
continue;` and finally the push into `studentData`. -/
def aggregateDeltas (tokenCreatedAt : List (String × ℚ)) (items : List AttendEntry) :
    List (String × List ℚ) :=
  items.foldl (fun acc row =>
    match mapGet tokenCreatedAt row.cipher with
    | none => acc
    | some createdAt =>
        if createdAt = 0 then acc
        else
          let delta := row.serverRecvTs - createdAt
          if delta < 0 then acc
          else addDelta acc row.studentId delta) []

/-- The surviving `(studentId, delta)` pairs as the claim describes them:
keep an event iff its token is a key of the map and its delta is
non-negative. -/
def claimSurvivors (m : List (String × ℚ)) (items : List AttendEntry) :
    List (String × ℚ) :=
  items.filterMap (fun row =>
    match mapGet m row.cipher with
    | none => none
    | some createdAt =>
        if row.serverRecvTs - createdAt < 0 then none
        else some (row.studentId, row.serverRecvTs - createdAt))

/-- The surviving `(studentId, delta)` pairs as the code actually selects
them: additionally drop events whose recorded creation time is `0`, because
`if (!createdAt) continue` treats the number 0 as missing. -/
def codeSurvivors (m : List (String × ℚ)) (items : List AttendEntry) :
    List (String × ℚ) :=
  items.filterMap (fun row =>
    match mapGet m row.cipher with
    | none => none
    | some createdAt =>
        if createdAt = 0 then none
        else if row.serverRecvTs - createdAt < 0 then none
        else some (row.studentId, row.serverRecvTs - createdAt))

/-- Grouping a list of `(studentId, delta)` pairs by student, preserving both
the students' first-appearance order and each student's delta order. -/
def groupDeltas (ps : List (String × ℚ)) : List (String × List ℚ) :=
  ps.foldl (fun acc p => addDelta acc p.1 p.2) []

/-! ### Robust statistics (src/unnamed/part_000, lines 245-283) -/

/-- Embeds `calculateMeanStd`: population mean and standard deviation
(`Math.sqrt` of the mean squared deviation), with the explicit empty-list
guard returning `{ mean: 0, std: 0 }`. -/
noncomputable def calculateMeanStd (values : List ℝ) : ℝ × ℝ :=
  if values.length = 0 then (0, 0)
  else
    let mean := values.sum / (values.length : ℝ)
    let variance := (values.map (fun val => (val - mean) ^ 2)).sum / (values.length : ℝ)
    (mean, Real.sqrt variance)

/-- Result record of `calculateRobustMean`. -/
structure RobustResult where
  mean : ℝ
  std : ℝ
  included : List ℝ

/-- Embeds the `while (iterations < maxIterations)` loop of
`calculateRobustMean` as structural recursion on the remaining iteration
budget: converge on a small mean change, filter by z-score
`|(val - mean) / (std || 1)| ≤ threshold`, stop when the filter removes
nothing or everything, else recurse on the filtered values. -/
noncomputable def robustLoop (thresholdStd : ℝ) : ℕ → List ℝ → ℝ → List ℝ
  | 0, current, _ => current
  | fuel + 1, current, prevMean =>
      let ms := calculateMeanStd current
      if |ms.1 - prevMean| < 0.1 then current
      else
        let filtered := current.filter fun val =>
          decide (|(val - ms.1) / (if ms.2 = 0 then 1 else ms.2)| ≤ thresholdStd)
        if filtered.length = 0 ∨ filtered.length = current.length then current
        else robustLoop thresholdStd fuel filtered ms.1

/-- Embeds `calculateRobustMean`: empty guard, at most 10 trimming
iterations, then mean/std of the last surviving values together with those
values as `included`. -/
noncomputable def calculateRobustMean (studentAverages : List ℝ) (thresholdStd : ℝ) :
    RobustResult :=
  if studentAverages.length = 0 then ⟨0, 0, []⟩
  else
    let currentValues := robustLoop thresholdStd 10 studentAverages 0
    let ms := calculateMeanStd currentValues
    ⟨ms.1, ms.2, currentValues⟩

/-- The robust-statistics procedure exactly as the spec words it (steps 1-3
of section 4.7): same mean/std, convergence test on `|mean − prevMean| <
0.1`, z-score filter `|value − mean| / (std or 1 if std==0) ≤ threshold`,
stop when the filter "removed nothing or removed everything". -/
noncomputable def robustSpecLoop (thresholdStd : ℝ) : ℕ → List ℝ → ℝ → List ℝ
  | 0, current, _ => current
  | fuel + 1, current, prevMean =>
      let ms := calculateMeanStd current
      if |ms.1 - prevMean| < 0.1 then current
      else
        let filtered := current.filter fun val =>
          decide (|val - ms.1| / (if ms.2 = 0 then 1 else ms.2) ≤ thresholdStd)
        if filtered = current ∨ filtered = [] then current
        else robustSpecLoop thresholdStd fuel filtered ms.1

/-- The spec's whole robust-mean procedure: run the loop of section 4.7 from
`current = all averages, prevMean = 0` with an iteration budget of 10, then
return the population mean and std over the last `current` together with that
list as `included`. -/
noncomputable def robustSpecMean (studentAverages : List ℝ) (thresholdStd : ℝ) :
    RobustResult :=
  if studentAverages = [] then ⟨0, 0, []⟩
  else
    let last := robustSpecLoop thresholdStd 10 studentAverages 0
    ⟨(calculateMeanStd last).1, (calculateMeanStd last).2, last⟩

/-! ### Theorems -/

/-- Helper: the JavaScript masking `(nowMs & 0xffffffff) >>> 0` computes
`nowMs mod 2^32` for every non-negative millisecond timestamp. -/
theorem tsLowOf_eq_mod (nowMs : ℕ) : tsLowOf nowMs = nowMs % 2 ^ 32 := by
  have h : tsLowOf nowMs = (nowMs % 2 ^ 32) &&& (2 ^ 32 - 1) := by
    show Nat.land _ 0xffffffff = _
    norm_num [HAnd.hAnd, AndOp.and]
  rw [h, Nat.and_pow_two_sub_one_eq_mod]
  omega

/-- Helper: the low-32-bits value is below `2^32`. -/
theorem tsLowOf_lt (nowMs : ℕ) : tsLowOf nowMs < 2 ^ 32 := by
  rw [tsLowOf_eq_mod]
  exact Nat.mod_lt _ (by norm_num)

/-- C4: the payload is exactly 10 bytes with version at offset 0, the low 32
bits of the timestamp as a big-endian uint32 at offsets 1-4, roomCode at
offset 5 and the 4 random bytes at offsets 6-9; and the stored 32-bit field
`(timestampMs & 0xffffffff) >>> 0` equals `timestampMs mod 2^32`. -/
theorem buildPayload_spec (nowMs : ℕ) (nonce : List ℕ) (hn : nonce.length = 4) :
    (buildPayload nowMs nonce).length = 10 ∧
    (buildPayload nowMs nonce)[0]? = some 1 ∧
    (buildPayload nowMs nonce)[5]? = some 1 ∧
    (buildPayload nowMs nonce).drop 6 = nonce ∧
    beDecode ((buildPayload nowMs nonce).drop 1 |>.take 4) = nowMs % 2 ^ 32 ∧
    tsLowOf nowMs = nowMs % 2 ^ 32 := by
  have ht := tsLowOf_eq_mod nowMs
  have hlt := tsLowOf_lt nowMs
  refine ⟨?_, ?_, ?_, ?_, ?_, ht⟩
  · simp [buildPayload, writeUInt32BE, hn]
  · simp [buildPayload, writeUInt32BE]
  · simp [buildPayload, writeUInt32BE]
  · simp [buildPayload, writeUInt32BE]
  · show beDecode (writeUInt32BE (tsLowOf nowMs)) = _
    rw [← ht]
    simp only [beDecode, writeUInt32BE, List.foldl]
    omega

/-- Witness for C4 at `timestampMs = 2^32 + 5` and nonce `[7, 8, 9, 10]`. -/
theorem buildPayload_spec_witness :
    ([7, 8, 9, 10] : List ℕ).length = 4 ∧
    ((buildPayload 4294967301 [7, 8, 9, 10]).length = 10 ∧
     (buildPayload 4294967301 [7, 8, 9, 10])[0]? = some 1 ∧
     (buildPayload 4294967301 [7, 8, 9, 10])[5]? = some 1 ∧
     (buildPayload 4294967301 [7, 8, 9, 10]).drop 6 = [7, 8, 9, 10] ∧
     beDecode ((buildPayload 4294967301 [7, 8, 9, 10]).drop 1 |>.take 4) =
       4294967301 % 2 ^ 32 ∧
     tsLowOf 4294967301 = 4294967301 % 2 ^ 32) :=
  ⟨by decide, buildPayload_spec 4294967301 [7, 8, 9, 10] (by decide)⟩

/-- C5: the clock sync estimator sets `offset = T − (t0 + (t3 − t0)/2)`; for
`t0 = 1000, T = 1050, t3 = 1020` the offset is 40; and on a failed probe the
offset is 0 so the caller never fails. -/
theorem syncServerTime_spec :
    syncServerTime (some 1050) 1000 1020 = 40 ∧
    (∀ t0 t3 : ℚ, syncServerTime none t0 t3 = 0) ∧
    (∀ t0 T t3 : ℚ, syncServerTime (some T) t0 t3 = T - (t0 + (t3 - t0) / 2)) := by
  refine ⟨by norm_num [syncServerTime], fun t0 t3 => rfl, fun t0 T t3 => rfl⟩

/-- Helper: `round` of a non-negative rational is non-negative. -/
theorem roundRat_nonneg {x : ℚ} (hx : 0 ≤ x) : 0 ≤ round x := by
  rw [round_eq]
  exact Int.le_floor.mpr (by push_cast; linarith)

/-- Helper: `round` of a rational at most 100 is at most 100. -/
theorem roundRat_le_100 {x : ℚ} (hx : x ≤ 100) : round x ≤ 100 := by
  rw [round_eq]
  have h : ⌊x + 1 / 2⌋ < (101 : ℤ) :=
    Int.floor_lt.mpr (by push_cast; linarith)
  omega

/-- Helper: outside the dead-zone and with positive std, `suspectRate` is the
tiered z-score curve. -/
theorem suspectRate_eq (a m s : ℚ) (h0 : 0 < s) (hd : ¬ |a - m| ≤ 50) :
    suspectRate a m s =
      (if |(a - m) / s| < 1 then 0
       else if |(a - m) / s| < 2 then round (30 + (|(a - m) / s| - 1) * 40)
       else if |(a - m) / s| < 3 then round (70 + (|(a - m) / s| - 2) * 25)
       else round (95 + min ((|(a - m) / s| - 3) * 5) 5)) := by
  simp [suspectRate, h0, hd]

/-- C2: the suspicion scorer returns 0 when `std = 0`, 0 inside the 50 ms
dead-zone, follows the tiered z-score curve otherwise, always lands in
`[0, 100]`, and takes the claimed values on the concrete examples
`mean = 100, std = 20`. -/
theorem suspectRate_spec :
    (∀ a m s : ℚ, 0 ≤ suspectRate a m s ∧ suspectRate a m s ≤ 100) ∧
    (∀ a m : ℚ, suspectRate a m 0 = 0) ∧
    (∀ a m s : ℚ, |a - m| ≤ 50 → suspectRate a m s = 0) ∧
    (∀ a m s : ℚ, 0 < s → 50 < |a - m| →
      ((|(a - m) / s| < 1 → suspectRate a m s = 0) ∧
       (1 ≤ |(a - m) / s| → |(a - m) / s| < 2 →
          suspectRate a m s = round (30 + (|(a - m) / s| - 1) * 40)) ∧
       (2 ≤ |(a - m) / s| → |(a - m) / s| < 3 →
          suspectRate a m s = round (70 + (|(a - m) / s| - 2) * 25)) ∧
       (3 ≤ |(a - m) / s| →
          suspectRate a m s = round (95 + min ((|(a - m) / s| - 3) * 5) 5)))) ∧
    suspectRate 100 100 20 = 0 ∧
    suspectRate 160 100 20 = 95 ∧
    suspectRate 145 100 20 = 0 ∧
    suspectRate 55 100 20 = 0 := by
  have dead : ∀ a m s : ℚ, |a - m| ≤ 50 → suspectRate a m s = 0 := by
    intro a m s hd
    by_cases h0 : 0 < s <;> simp [suspectRate, h0, hd]
  have hex2 : suspectRate 160 100 20 = 95 := by
    rw [suspectRate_eq 160 100 20 (by norm_num) (by norm_num)]
    norm_num [min_def]
  refine ⟨?_, ?_, dead, ?_, dead 100 100 20 (by norm_num), hex2,
    dead 145 100 20 (by norm_num), dead 55 100 20 (by norm_num)⟩
  · intro a m s
    by_cases h0 : 0 < s
    · by_cases hd : |a - m| ≤ 50
      · simp [suspectRate, h0, hd]
      · rw [suspectRate_eq a m s h0 hd]
        have hz : (0 : ℚ) ≤ |(a - m) / s| := abs_nonneg _
        split_ifs with h1 h2 h3
        · exact ⟨le_refl 0, by norm_num⟩
        · push_neg at h1
          exact ⟨roundRat_nonneg (by linarith), roundRat_le_100 (by linarith)⟩
        · push_neg at h1 h2
          exact ⟨roundRat_nonneg (by linarith), roundRat_le_100 (by linarith)⟩
        · push_neg at h1 h2 h3
          have hmin_le : min ((|(a - m) / s| - 3) * 5) 5 ≤ 5 := min_le_right _ _
          have hmin_ge : (0 : ℚ) ≤ min ((|(a - m) / s| - 3) * 5) 5 :=
            le_min (by linarith) (by norm_num)
          exact ⟨roundRat_nonneg (by linarith), roundRat_le_100 (by linarith)⟩
    · simp [suspectRate, h0]
  · intro a m
    simp [suspectRate]
  · intro a m s h0 hd
    have hd' : ¬ |a - m| ≤ 50 := not_le.mpr hd
    rw [suspectRate_eq a m s h0 hd']
    refine ⟨?_, ?_, ?_, ?_⟩
    · intro h1
      rw [if_pos h1]
    · intro h1 h2
      rw [if_neg (not_lt.mpr h1), if_pos h2]
    · intro h2 h3
      rw [if_neg (not_lt.mpr (by linarith)), if_neg (not_lt.mpr h2), if_pos h3]
    · intro h3
      rw [if_neg (not_lt.mpr (by linarith)), if_neg (not_lt.mpr (by linarith)),
        if_neg (not_lt.mpr h3)]

/-- Witness for C2: at `studentAvg = 160, mean = 100, std = 20` the
hypotheses of the tiered branch hold and the scorer follows the `z ≥ 3`
formula (evaluating to 95). -/
theorem suspectRate_spec_witness :
    (0 : ℚ) < 20 ∧ 50 < |(160 : ℚ) - 100| ∧ 3 ≤ |((160 : ℚ) - 100) / 20| ∧
    suspectRate 160 100 20 =
      round (95 + min ((|((160 : ℚ) - 100) / 20| - 3) * 5) 5) :=
  ⟨by norm_num, by norm_num, by norm_num,
    (suspectRate_spec.2.2.2.1 160 100 20 (by norm_num) (by norm_num)).2.2.2
      (by norm_num)⟩

/-- Helper: one accepted scan grows the log to `min (length + 1) 500`. -/
theorem pushAttendLog_length (log : List AttendEntry) (r : ScanInput) :
    (pushAttendLog log r).length = min (log.length + 1) 500 := by
  simp only [pushAttendLog, MAX_ATTEND_LOG]
  split_ifs with h <;> simp_all
  omega

/-- Helper: the entry created by an accepted scan is the last element of the
resulting log, and its id is the pre-push length plus one. -/
theorem pushAttendLog_getLast (log : List AttendEntry) (r : ScanInput) :
    (pushAttendLog log r).getLast? =
      some ⟨log.length + 1, r.logTime, r.ip, r.studentId, r.cipher, r.serverRecvTs⟩ := by
  simp only [pushAttendLog, MAX_ATTEND_LOG]
  split_ifs with h
  · have hk : (log ++ [(⟨log.length + 1, r.logTime, r.ip, r.studentId, r.cipher,
        r.serverRecvTs⟩ : AttendEntry)]).length - 500 ≤ log.length := by
      simp only [List.length_append, List.length_singleton]
      omega
    rw [List.drop_append_of_le_length hk, List.getLast?_concat]
  · exact List.getLast?_concat _

/-- C9: `POST /api/qr` answers `invalid_request` exactly when `cipher` or
`studentId` is absent or empty, leaves the log unchanged in that case, and
otherwise answers `ok` with the echoed fields and appends exactly one entry
(the new entry is the last element of the updated log). -/
theorem postQr_spec (log : List AttendEntry) (cipher studentId : Option String)
    (ip logTime : String) (now : ℚ) :
    ((postQr log cipher studentId ip logTime now).1 = PostResponse.invalidRequest ↔
      (cipher = none ∨ cipher = some "" ∨ studentId = none ∨ studentId = some "")) ∧
    ((cipher = none ∨ cipher = some "" ∨ studentId = none ∨ studentId = some "") →
      (postQr log cipher studentId ip logTime now).2 = log) ∧
    (∀ c s, cipher = some c → studentId = some s → c ≠ "" → s ≠ "" →
      (postQr log cipher studentId ip logTime now).1 = PostResponse.ok s now c ∧
      (postQr log cipher studentId ip logTime now).2 =
        pushAttendLog log ⟨logTime, ip, s, c, now⟩ ∧
      (postQr log cipher studentId ip logTime now).2.getLast? =
        some ⟨log.length + 1, logTime, ip, s, c, now⟩ ∧
      (postQr log cipher studentId ip logTime now).2.length =
        min (log.length + 1) 500) := by
  cases cipher with
  | none => simp [postQr]
  | some c =>
    cases studentId with
    | none => simp [postQr]
    | some s =>
      by_cases hcs : c = "" ∨ s = ""
      · have hres : postQr log (some c) (some s) ip logTime now =
            (PostResponse.invalidRequest, log) := by
          simp [postQr, hcs]
        refine ⟨?_, fun _ => by rw [hres], ?_⟩
        · rw [hres]
          constructor
          · intro _
            rcases hcs with h | h
            · exact Or.inr (Or.inl (by rw [h]))
            · exact Or.inr (Or.inr (Or.inr (by rw [h])))
          · intro _
            rfl
        · intro c' s' hc' hs' hcne hsne
          injection hc' with h1
          injection hs' with h2
          subst h1
          subst h2
          exact absurd hcs (by tauto)
      · push_neg at hcs
        have hres : postQr log (some c) (some s) ip logTime now =
            (PostResponse.ok s now c,
              pushAttendLog log ⟨logTime, ip, s, c, now⟩) := by
          simp [postQr, hcs.1, hcs.2]
        refine ⟨?_, ?_, ?_⟩
        · rw [hres]
          simp only [iff_iff_implies_and_implies]
          constructor
          · intro h
            exact absurd h (by simp)
          · intro h
            rcases h with h | h | h | h <;> simp_all
        · intro h
          rcases h with h | h | h | h <;> simp_all
        · intro c' s' hc' hs' hcne hsne
          injection hc' with h1
          injection hs' with h2
          subst h1
          subst h2
          refine ⟨by rw [hres], by rw [hres], ?_, ?_⟩
          · rw [hres]
            exact pushAttendLog_getLast log _
          · rw [hres]
            exact pushAttendLog_length log _

/-- Witness for C9: a well-formed request on the empty log is accepted, the
response echoes the fields, and the log gains exactly one entry. -/
theorem postQr_spec_witness :
    (postQr [] (some "tok") (some "20251234") "ip" "t" 5).1 =
      PostResponse.ok "20251234" 5 "tok" ∧
    (postQr [] (some "tok") (some "20251234") "ip" "t" 5).2.length = min 1 500 :=
  ⟨((postQr_spec [] (some "tok") (some "20251234") "ip" "t" 5).2.2 "tok" "20251234"
      rfl rfl (by decide) (by decide)).1,
   by
    have h := ((postQr_spec [] (some "tok") (some "20251234") "ip" "t" 5).2.2 "tok"
      "20251234" rfl rfl (by decide) (by decide)).2.2.2
    simpa using h⟩

/-- Helper: replaying one more accepted scan. -/
theorem logOf_append (rows : List ScanInput) (r : ScanInput) :
    logOf (rows ++ [r]) = pushAttendLog (logOf rows) r := by
  simp [logOf, List.foldl_append]

/-- Helper: the request data retained by one push is the last-500 suffix of
the previous retained data plus the new request. -/
theorem pushAttendLog_map (log : List AttendEntry) (r : ScanInput) :
    (pushAttendLog log r).map AttendEntry.toInput =
      (log.map AttendEntry.toInput ++ [r]).drop (log.length + 1 - 500) := by
  simp only [pushAttendLog, MAX_ATTEND_LOG]
  split_ifs with h
  · rw [List.map_drop]
    simp [AttendEntry.toInput]
  · have h0 : log.length + 1 - 500 = 0 := by
      simp only [List.length_append, List.length_singleton] at h
      omega
    rw [h0]
    simp [AttendEntry.toInput]

/-- Helper: replaying `n` accepted scans leaves `min n 500` entries whose
request data is exactly the most recent suffix of the requests, in order. -/
theorem attendLog_cap_aux (rows : List ScanInput) :
    (logOf rows).length = min rows.length 500 ∧
    (logOf rows).map AttendEntry.toInput = rows.drop (rows.length - 500) := by
  induction rows using List.reverseRecOn with
  | nil => simp [logOf]
  | append_singleton rows r ih =>
    obtain ⟨hlen, hmap⟩ := ih
    rw [logOf_append]
    refine ⟨?_, ?_⟩
    · rw [pushAttendLog_length, hlen]
      simp only [List.length_append, List.length_singleton]
      omega
    · rw [pushAttendLog_map, hlen, hmap]
      by_cases h : rows.length < 500
      · have h3 : min rows.length 500 + 1 - 500 = 0 := by omega
        have h4 : (rows ++ [r]).length - 500 = 0 := by
          simp only [List.length_append, List.length_singleton]
          omega
        have h5 : rows.length - 500 = 0 := by omega
        rw [h3, h4, h5]
        simp
      · push_neg at h
        have h1 : min rows.length 500 + 1 - 500 = 1 := by omega
        have h2 : (rows ++ [r]).length - 500 = rows.length + 1 - 500 := by
          simp only [List.length_append, List.length_singleton]
        rw [h1, h2]
        rw [List.drop_append_of_le_length (by omega : rows.length + 1 - 500 ≤ rows.length)]
        rw [List.drop_append_of_le_length
          (by simp only [List.length_drop]; omega : 1 ≤ (rows.drop (rows.length - 500)).length)]
        rw [List.drop_drop]
        have h6 : rows.length - 500 + 1 = rows.length + 1 - 500 := by omega
        rw [h6]

/-- The request stream used for concrete log scenarios: the `i`-th scan
carries receipt time `i`. -/
def stdRows (n : ℕ) : List ScanInput :=
  (List.range n).map (fun (i : ℕ) => ⟨"t", "ip", "s", "c", (i : ℚ)⟩)

/-- Helper: `stdRows` grows one request at a time. -/
theorem stdRows_succ (n : ℕ) :
    stdRows (n + 1) = stdRows n ++ [⟨"t", "ip", "s", "c", (n : ℚ)⟩] := by
  simp [stdRows, List.range_succ]

/-- Helper: `stdRows n` has `n` requests. -/
theorem stdRows_length (n : ℕ) : (stdRows n).length = n := by
  simp [stdRows]

/-- C8: after every sequence of accepted scans the log holds at most 500
entries — exactly `min n 500` of them — and the retained entries are exactly
the most recently appended ones in append order; in particular 501 appends to
the empty log leave the most recent 500 with the oldest dropped. -/
theorem attendLog_cap :
    (∀ rows : List ScanInput,
      (logOf rows).length ≤ 500 ∧
      (logOf rows).length = min rows.length 500 ∧
      (logOf rows).map AttendEntry.toInput = rows.drop (rows.length - 500)) ∧
    (logOf (stdRows 501)).length = 500 ∧
    (logOf (stdRows 501)).map AttendEntry.toInput = (stdRows 501).drop 1 := by
  have hgen : ∀ rows : List ScanInput,
      (logOf rows).length ≤ 500 ∧
      (logOf rows).length = min rows.length 500 ∧
      (logOf rows).map AttendEntry.toInput = rows.drop (rows.length - 500) := by
    intro rows
    obtain ⟨h1, h2⟩ := attendLog_cap_aux rows
    exact ⟨by omega, h1, h2⟩
  obtain ⟨_, h1, h2⟩ := hgen (stdRows 501)
  rw [stdRows_length] at h1 h2
  exact ⟨hgen, by omega, by simpa using h2⟩

/-- Helper: pushing onto a full log drops the oldest entry and assigns the
new entry id `501` — the same id as the previous newest entry got. -/
theorem pushAttendLog_full (log : List AttendEntry) (r : ScanInput)
    (h : log.length = 500) :
    pushAttendLog log r =
      log.drop 1 ++ [⟨501, r.logTime, r.ip, r.studentId, r.cipher, r.serverRecvTs⟩] := by
  have hlen : (log ++ [(⟨log.length + 1, r.logTime, r.ip, r.studentId, r.cipher,
      r.serverRecvTs⟩ : AttendEntry)]).length = 501 := by
    simp [h]
  simp only [pushAttendLog, MAX_ATTEND_LOG]
  rw [if_pos (by rw [hlen]; norm_num), hlen]
  rw [List.drop_append_of_le_length (by omega)]
  rw [h]

/-- C7 counterexample: after 502 accepted scans the log's last two entries —
the ones appended at steps 501 and 502 — both carry sequence id 501, so a
newly appended entry's id is not strictly greater than the ids of all
previously appended entries once eviction has begun. -/
theorem attendLog_id_counterexample :
    ((logOf (stdRows 502)).getLast?).map AttendEntry.id = some 501 ∧
    (((logOf (stdRows 502)).dropLast).getLast?).map AttendEntry.id = some 501 ∧
    (logOf (stdRows 502)).length = 500 := by
  have h500 : (logOf (stdRows 500)).length = 500 := by
    have := (attendLog_cap_aux (stdRows 500)).1
    rw [stdRows_length] at this
    simpa using this
  have h501 : (logOf (stdRows 501)).length = 500 := by
    have := (attendLog_cap_aux (stdRows 501)).1
    rw [stdRows_length] at this
    simpa using this
  have e501 : logOf (stdRows 501) =
      (logOf (stdRows 500)).drop 1 ++ [⟨501, "t", "ip", "s", "c", (500 : ℚ)⟩] := by
    rw [show (501 : ℕ) = 500 + 1 from rfl, stdRows_succ, logOf_append]
    exact pushAttendLog_full _ _ h500
  have e502 : logOf (stdRows 502) =
      (logOf (stdRows 501)).drop 1 ++ [⟨501, "t", "ip", "s", "c", (501 : ℚ)⟩] := by
    rw [show (502 : ℕ) = 501 + 1 from rfl, stdRows_succ, logOf_append]
    exact pushAttendLog_full _ _ h501
  refine ⟨?_, ?_, ?_⟩
  · rw [e502, List.getLast?_concat]
    rfl
  · rw [e502, List.dropLast_concat, e501]
    rw [List.drop_append_of_le_length (by rw [List.length_drop, h500]; omega)]
    rw [List.getLast?_concat]
    rfl
  · rw [e502]
    simp [h501]

/-- Helper: with at most 500 replayed scans no eviction happens and the ids
are `1, 2, …, n` in order. -/
theorem logOf_map_id (rows : List ScanInput) (h : rows.length ≤ 500) :
    (logOf rows).map AttendEntry.id = (List.range rows.length).map (· + 1) := by
  induction rows using List.reverseRecOn with
  | nil => simp [logOf]
  | append_singleton rows r ih =>
    have hn : rows.length ≤ 499 := by
      simp only [List.length_append, List.length_singleton] at h
      omega
    have hlen : (logOf rows).length = rows.length := by
      have := (attendLog_cap_aux rows).1
      omega
    have hpush : pushAttendLog (logOf rows) r =
        logOf rows ++ [⟨(logOf rows).length + 1, r.logTime, r.ip, r.studentId,
          r.cipher, r.serverRecvTs⟩] := by
      simp only [pushAttendLog, MAX_ATTEND_LOG]
      rw [if_neg (by simp [hlen]; omega)]
    rw [logOf_append, hpush]
    simp only [List.map_append, List.map_cons, List.map_nil, ih (by omega), hlen,
      List.length_append, List.length_singleton, List.range_succ]

/-- C7 amended: the entry appended by the `n+1`-st accepted scan carries id
`min n 500 + 1`; hence ids increase strictly only while the log has never
been evicted (for the first 500 appends the ids are exactly `1, …, n`), and
from the 501st append on every new entry carries the constant id 501. -/
theorem attendLog_id_amended :
    (∀ (rows : List ScanInput) (r : ScanInput),
      ((logOf (rows ++ [r])).getLast?).map AttendEntry.id =
        some (min rows.length 500 + 1)) ∧
    (∀ rows : List ScanInput, rows.length ≤ 500 →
      (logOf rows).map AttendEntry.id = (List.range rows.length).map (· + 1)) := by
  constructor
  · intro rows r
    rw [logOf_append, pushAttendLog_getLast, (attendLog_cap_aux rows).1]
    rfl
  · exact logOf_map_id

/-- Witness for C7 (amended): two accepted scans on a fresh log get the
strictly increasing ids `[1, 2]`. -/
theorem attendLog_id_amended_witness :
    (stdRows 2).length ≤ 500 ∧
    (logOf (stdRows 2)).map AttendEntry.id = (List.range (stdRows 2).length).map (· + 1) :=
  ⟨by rw [stdRows_length]; omega, attendLog_id_amended.2 (stdRows 2) (by rw [stdRows_length]; omega)⟩

/-- Helper: the aggregation fold applies `addDelta` exactly to the events the
code keeps (token found, creation time non-falsy, delta non-negative), from
any starting accumulator. -/
theorem aggregateDeltas_eq (m : List (String × ℚ)) (items : List AttendEntry) :
    aggregateDeltas m items = groupDeltas (codeSurvivors m items) := by
  suffices h : ∀ acc : List (String × List ℚ),
      List.foldl (fun acc row =>
        match mapGet m row.cipher with
        | none => acc
        | some createdAt =>
            if createdAt = 0 then acc
            else
              let delta := row.serverRecvTs - createdAt
              if delta < 0 then acc
              else addDelta acc row.studentId delta) acc items =
      List.foldl (fun acc p => addDelta acc p.1 p.2) acc (codeSurvivors m items) by
    exact h []
  induction items with
  | nil =>
    intro acc
    rfl
  | cons row rest ih =>
    intro acc
    rcases hm : mapGet m row.cipher with _ | c
    · have hs : codeSurvivors m (row :: rest) = codeSurvivors m rest := by
        simp [codeSurvivors, List.filterMap_cons, hm]
      rw [hs, List.foldl_cons]
      simp only [hm]
      exact ih acc
    · by_cases hc : c = 0
      · have hs : codeSurvivors m (row :: rest) = codeSurvivors m rest := by
          simp [codeSurvivors, List.filterMap_cons, hm, hc]
        rw [hs, List.foldl_cons]
        simp only [hm, if_pos hc]
        exact ih acc
      · by_cases hd : row.serverRecvTs - c < 0
        · have hd' : row.serverRecvTs < c := by linarith
          have hs : codeSurvivors m (row :: rest) = codeSurvivors m rest := by
            simp [codeSurvivors, List.filterMap_cons, hm, hc, hd, hd']
          rw [hs, List.foldl_cons]
          simp only [hm, if_neg hc, if_pos hd]
          exact ih acc
        · have hd' : ¬ row.serverRecvTs < c := by
            push_neg at hd ⊢
            linarith
          have hs : codeSurvivors m (row :: rest) =
              (row.studentId, row.serverRecvTs - c) :: codeSurvivors m rest := by
            simp [codeSurvivors, List.filterMap_cons, hm, hc, hd, hd']
          rw [hs, List.foldl_cons, List.foldl_cons]
          simp only [hm, if_neg hc, if_neg hd]
          exact ih (addDelta acc row.studentId (row.serverRecvTs - c))

/-- C6 counterexample: for a token that IS a key of the session map but was
recorded with creation time 0, the matched event has the non-negative delta
5 yet contributes to no participant's delta set — the code's falsy test
`if (!createdAt) continue` drops it, while grouping the survivors the claim
describes would yield `s ↦ [5]`. -/
theorem aggregateDeltas_counterexample :
    aggregateDeltas [("t", 0)] [⟨1, "lt", "ip", "s", "t", 5⟩] = [] ∧
    groupDeltas (claimSurvivors [("t", 0)] [⟨1, "lt", "ip", "s", "t", 5⟩]) =
      [("s", [5])] := by
  constructor
  · decide
  · have hm : mapGet [("t", 0)] "t" = some 0 := by decide
    have hlt : ¬ ((5 : ℚ) - 0 < 0) := by norm_num
    simp [claimSurvivors, List.filterMap_cons, hm, hlt, groupDeltas, addDelta]

/-- C6 amended: the aggregation equals grouping (by participant, insertion
order preserved) of exactly those events whose token is a key of the session
map with a non-zero recorded creation time and whose delta is non-negative;
in particular an event whose token is absent from the map, or whose delta is
negative, contributes nothing. -/
theorem aggregateDeltas_amended :
    (∀ (m : List (String × ℚ)) (items : List AttendEntry),
      aggregateDeltas m items = groupDeltas (codeSurvivors m items)) ∧
    (∀ (m : List (String × ℚ)) (pre post : List AttendEntry) (row : AttendEntry),
      mapGet m row.cipher = none →
      aggregateDeltas m (pre ++ row :: post) = aggregateDeltas m (pre ++ post)) ∧
    (∀ (m : List (String × ℚ)) (pre post : List AttendEntry) (row : AttendEntry)
      (c : ℚ), mapGet m row.cipher = some c → row.serverRecvTs - c < 0 →
      aggregateDeltas m (pre ++ row :: post) = aggregateDeltas m (pre ++ post)) := by
  refine ⟨aggregateDeltas_eq, ?_, ?_⟩
  · intro m pre post row hm
    rw [aggregateDeltas_eq, aggregateDeltas_eq]
    have hs : codeSurvivors m (pre ++ row :: post) = codeSurvivors m (pre ++ post) := by
      simp [codeSurvivors, List.filterMap_append, List.filterMap_cons, hm]
    rw [hs]
  · intro m pre post row c hm hd
    rw [aggregateDeltas_eq, aggregateDeltas_eq]
    have hd' : row.serverRecvTs < c := by linarith
    have hs : codeSurvivors m (pre ++ row :: post) = codeSurvivors m (pre ++ post) := by
      by_cases hc : c = 0
      · simp [codeSurvivors, List.filterMap_append, List.filterMap_cons, hm, hc]
      · simp [codeSurvivors, List.filterMap_append, List.filterMap_cons, hm, hc, hd, hd']
    rw [hs]

/-- Witness for C6 (amended): an event whose token `"u"` is not a key of the
map `[("t", 3)]` contributes nothing. -/
theorem aggregateDeltas_amended_witness :
    mapGet [("t", 3)] "u" = none ∧
    aggregateDeltas [("t", 3)] ([] ++ (⟨1, "lt", "ip", "s", "u", 5⟩ : AttendEntry) :: []) =
      aggregateDeltas [("t", 3)] ([] ++ []) :=
  ⟨by decide,
    aggregateDeltas_amended.2.1 [("t", 3)] [] [] ⟨1, "lt", "ip", "s", "u", 5⟩ (by decide)⟩

/-- C10: `calculateMeanStd` and `calculateRobustMean` are total — the empty
list is handled by explicit guards returning zeros, every division performed
on a non-empty list is by its non-zero length, and the z-score divisor
`(std || 1)` is never zero. -/
theorem stats_empty_guards :
    calculateMeanStd ([] : List ℝ) = (0, 0) ∧
    (∀ t : ℝ, calculateRobustMean [] t = ⟨0, 0, []⟩) ∧
    (∀ l : List ℝ, l ≠ [] →
      ((l.length : ℝ) ≠ 0 ∧
       calculateMeanStd l =
         (l.sum / (l.length : ℝ),
          Real.sqrt ((l.map fun v => (v - l.sum / (l.length : ℝ)) ^ 2).sum /
            (l.length : ℝ))))) ∧
    (∀ s : ℝ, (if s = 0 then (1 : ℝ) else s) ≠ 0) := by
  refine ⟨by simp [calculateMeanStd], fun t => by simp [calculateRobustMean], ?_, ?_⟩
  · intro l hl
    have hlen : l.length ≠ 0 := by simpa using hl
    refine ⟨Nat.cast_ne_zero.mpr hlen, ?_⟩
    simp [calculateMeanStd, hlen]
  · intro s
    by_cases hs : s = 0
    · simp [hs]
    · simp [hs]

/-- Witness for C10 at the singleton list `[2]`. -/
theorem stats_empty_guards_witness :
    ([(2 : ℝ)] ≠ []) ∧
    ((([(2 : ℝ)].length : ℝ) ≠ 0) ∧
     calculateMeanStd [(2 : ℝ)] =
       ([(2 : ℝ)].sum / (([(2 : ℝ)].length : ℝ)),
        Real.sqrt (([(2 : ℝ)].map fun v =>
          (v - [(2 : ℝ)].sum / (([(2 : ℝ)].length : ℝ))) ^ 2).sum /
          (([(2 : ℝ)].length : ℝ))))) :=
  ⟨by simp, stats_empty_guards.2.2.1 [(2 : ℝ)] (by simp)⟩

/-- Helper: mean and std of the example averages `[100, 105, 98, 102, 500]`:
the population mean is 181 and the variance is `127228 / 5 = 25445.6`. -/
theorem robust_example_meanStd :
    calculateMeanStd [100, 105, 98, 102, 500] = (181, Real.sqrt (127228 / 5)) := by
  unfold calculateMeanStd
  rw [if_neg (by norm_num)]
  norm_num [List.sum_cons, List.map_cons, List.sum_nil, List.map_nil]

/-- Helper: the example's std is positive (hence not 0). -/
theorem robust_example_std_pos : 0 < Real.sqrt (127228 / 5) :=
  Real.sqrt_pos.mpr (by norm_num)

/-- Helper: any value whose squared deviation is at most `4 · 25445.6 =
101782.4` has z-score at most 2 against the example's std. -/
theorem robust_example_zscore {x : ℝ} (hx : x ^ 2 ≤ 508912 / 5) :
    |x / Real.sqrt (127228 / 5)| ≤ 2 := by
  have hpos := robust_example_std_pos
  rw [abs_div, abs_of_pos hpos, div_le_iff₀ hpos]
  have h2s : (2 : ℝ) * Real.sqrt (127228 / 5) = Real.sqrt (508912 / 5) := by
    rw [show (508912 / 5 : ℝ) = 2 ^ 2 * (127228 / 5) by norm_num,
      Real.sqrt_mul (by positivity), Real.sqrt_sq (by norm_num)]
  rw [h2s, ← Real.sqrt_sq_eq_abs]
  exact Real.sqrt_le_sqrt hx

/-- Helper: at the example input the z-score filter keeps every value — the
extreme value 500 has z-score `319 / √25445.6 ≈ 1.9998 ≤ 2`. -/
theorem robust_example_filter :
    (([100, 105, 98, 102, 500] : List ℝ).filter fun val =>
      decide (|(val - 181) / (if Real.sqrt (127228 / 5) = 0 then 1
        else Real.sqrt (127228 / 5))| ≤ 2)) = [100, 105, 98, 102, 500] := by
  rw [if_neg (ne_of_gt robust_example_std_pos)]
  rw [List.filter_eq_self]
  intro a ha
  rw [decide_eq_true_eq]
  fin_cases ha <;> [skip; skip; skip; skip; skip] <;>
    exact robust_example_zscore (by norm_num)

/-- Helper: the trimming loop stops immediately on the example input because
the filter removes nothing, so the surviving list is the full input. -/
theorem robust_example_loop :
    robustLoop 2 10 [100, 105, 98, 102, 500] 0 = [100, 105, 98, 102, 500] := by
  rw [show (10 : ℕ) = 9 + 1 from rfl, robustLoop]
  simp only [robust_example_meanStd]
  rw [if_neg (by norm_num : ¬ |(181 : ℝ) - 0| < 0.1)]
  simp only [robust_example_filter]
  simp

/-- Helper: full evaluation of `calculateRobustMean` at the example input:
nothing is trimmed, the result keeps all five averages with mean 181. -/
theorem robust_example_eval :
    calculateRobustMean [100, 105, 98, 102, 500] 2 =
      ⟨181, Real.sqrt (127228 / 5), [100, 105, 98, 102, 500]⟩ := by
  unfold calculateRobustMean
  rw [if_neg (by norm_num)]
  simp only [robust_example_loop, robust_example_meanStd]

/-- Helper: the std returned by `calculateMeanStd` is a square root (or the
guard's 0) and hence non-negative. -/
theorem calculateMeanStd_snd_nonneg (l : List ℝ) : 0 ≤ (calculateMeanStd l).2 := by
  unfold calculateMeanStd
  split_ifs
  · norm_num
  · exact Real.sqrt_nonneg _

/-- Helper: the code's trimming loop computes exactly the loop the spec
words describe — the code's `|(val − mean) / (std or 1)| ≤ t` filter equals
the spec's `|val − mean| / (std or 1) ≤ t` filter because the divisor is
positive, and the code's length-based stop test equals the spec's
"removed nothing or removed everything" test because a filter is a
sublist. -/
theorem robustLoop_eq_spec (t : ℝ) :
    ∀ (fuel : ℕ) (current : List ℝ) (prevMean : ℝ),
      robustLoop t fuel current prevMean = robustSpecLoop t fuel current prevMean := by
  intro fuel
  induction fuel with
  | zero =>
    intro current prevMean
    rfl
  | succ fuel ih =>
    intro current prevMean
    simp only [robustLoop, robustSpecLoop]
    by_cases hconv : |(calculateMeanStd current).1 - prevMean| < 0.1
    · rw [if_pos hconv, if_pos hconv]
    · rw [if_neg hconv, if_neg hconv]
      have hd : 0 < (if (calculateMeanStd current).2 = 0 then (1 : ℝ)
          else (calculateMeanStd current).2) := by
        have h := calculateMeanStd_snd_nonneg current
        split_ifs with h0
        · norm_num
        · exact lt_of_le_of_ne h (Ne.symm h0)
      have hfil : (current.filter fun val =>
            decide (|(val - (calculateMeanStd current).1) /
              (if (calculateMeanStd current).2 = 0 then 1
               else (calculateMeanStd current).2)| ≤ t)) =
          current.filter fun val =>
            decide (|val - (calculateMeanStd current).1| /
              (if (calculateMeanStd current).2 = 0 then 1
               else (calculateMeanStd current).2) ≤ t) := by
        apply List.filter_congr
        intro a _
        apply decide_eq_decide.mpr
        rw [abs_div, abs_of_pos hd]
      rw [hfil]
      set F := current.filter fun val =>
        decide (|val - (calculateMeanStd current).1| /
          (if (calculateMeanStd current).2 = 0 then 1
           else (calculateMeanStd current).2) ≤ t) with hF
      have hiff : (F.length = 0 ∨ F.length = current.length) ↔
          (F = current ∨ F = []) := by
        constructor
        · rintro (h | h)
          · exact Or.inr (List.length_eq_zero.mp h)
          · exact Or.inl ((List.filter_sublist _).eq_of_length h)
        · rintro (h | h)
          · exact Or.inr (by rw [h])
          · exact Or.inl (by simp [h])
      by_cases hstop : F = current ∨ F = []
      · rw [if_pos (hiff.mpr hstop), if_pos hstop]
      · rw [if_neg (fun h => hstop (hiff.mp h)), if_neg hstop]
        exact ih F (calculateMeanStd current).1

/-- C1 counterexample: on the spec's example input `[100, 105, 98, 102, 500]`
with threshold 2.0 the returned `included` list is the whole input — 5
elements, not 4, and 500 is NOT excluded (its z-score is `319 / √25445.6 ≈
1.9998`, which does not exceed 2.0). -/
theorem calculateRobustMean_counterexample :
    (calculateRobustMean [100, 105, 98, 102, 500] 2).included =
      [100, 105, 98, 102, 500] ∧
    (calculateRobustMean [100, 105, 98, 102, 500] 2).included.length ≠ 4 ∧
    (500 : ℝ) ∈ (calculateRobustMean [100, 105, 98, 102, 500] 2).included := by
  rw [robust_example_eval]
  exact ⟨rfl, by norm_num, by simp⟩

/-- C1 amended: the robust statistics engine performs exactly the iterative
procedure the claim describes (same initial state, convergence test, z-score
filter, stop conditions and final recomputation); but on the example input
`[100, 105, 98, 102, 500]` with threshold 2.0 the filter removes nothing —
500's z-score stays at 2.0 or below — so the returned `included` set has all
5 elements (mean 181), not 4. -/
theorem calculateRobustMean_amended :
    (∀ (l : List ℝ) (t : ℝ), calculateRobustMean l t = robustSpecMean l t) ∧
    (calculateRobustMean [100, 105, 98, 102, 500] 2).included =
      [100, 105, 98, 102, 500] ∧
    (calculateRobustMean [100, 105, 98, 102, 500] 2).mean = 181 := by
  refine ⟨?_, by rw [robust_example_eval], by rw [robust_example_eval]⟩
  intro l t
  by_cases hl : l = []
  · subst hl
    simp [calculateRobustMean, robustSpecMean]
  · simp only [calculateRobustMean, robustSpecMean]
    rw [if_neg (by simpa using hl), if_neg hl, robustLoop_eq_spec]

/-- Helper: the 64 base64 digit characters are pairwise distinct. -/
theorem b64Char_fin_inj : ∀ i j : Fin 64, b64Char i = b64Char j → i = j := by decide

/-- Helper: injectivity of `b64Char` on 6-bit values. -/
theorem b64Char_inj {m n : ℕ} (hm : m < 64) (hn : n < 64)
    (h : b64Char m = b64Char n) : m = n := by
  have := b64Char_fin_inj ⟨m, hm⟩ ⟨n, hn⟩ (by simpa using h)
  simpa [Fin.ext_iff] using this

/-- Helper: no base64 digit character is the padding character. -/
theorem b64Char_fin_ne_pad : ∀ i : Fin 64, b64Char i ≠ '=' := by decide

/-- Helper: `b64Char` of a 6-bit value is never `'='`. -/
theorem b64Char_ne_pad {n : ℕ} (hn : n < 64) : b64Char n ≠ '=' :=
  b64Char_fin_ne_pad ⟨n, hn⟩

/-- Helper: base64 encoding is injective on byte lists, so two different
envelope layouts of the same bytes give different token strings. -/
theorem base64Encode_inj : ∀ (xs ys : List ℕ), (∀ x ∈ xs, x < 256) →
    (∀ y ∈ ys, y < 256) → base64Encode xs = base64Encode ys → xs = ys
  | [], [], _, _, _ => rfl
  | [], [_], _, _, h => by simp [base64Encode] at h
  | [], [_, _], _, _, h => by simp [base64Encode] at h
  | [], _ :: _ :: _ :: _, _, _, h => by simp [base64Encode] at h
  | [_], [], _, _, h => by simp [base64Encode] at h
  | [a], [b], hx, hy, h => by
      have ha : a < 256 := hx a (by simp)
      have hb : b < 256 := hy b (by simp)
      simp only [base64Encode, List.cons.injEq, and_true] at h
      obtain ⟨h1, h2⟩ := h
      have e1 := b64Char_inj (by omega) (by omega) h1
      have e2 := b64Char_inj (by omega) (by omega) h2
      have : a = b := by omega
      rw [this]
  | [a], [b, c], hx, hy, h => by
      have hc : c < 256 := hy c (by simp)
      simp only [base64Encode, List.cons.injEq] at h
      exact absurd h.2.2.1.symm (b64Char_ne_pad (by omega))
  | [a], b :: c :: d :: t, hx, hy, h => by
      have hc : c < 256 := hy c (by simp)
      have hd : d < 256 := hy d (by simp)
      simp only [base64Encode, List.cons.injEq] at h
      exact absurd h.2.2.1.symm (b64Char_ne_pad (by omega))
  | [a, b], [], _, _, h => by simp [base64Encode] at h
  | [a, b], [c], hx, hy, h => by
      have hb : b < 256 := hx b (by simp)
      simp only [base64Encode, List.cons.injEq] at h
      exact absurd h.2.2.1 (b64Char_ne_pad (by omega))
  | [a, b], [c, d], hx, hy, h => by
      have ha : a < 256 := hx a (by simp)
      have hb : b < 256 := hx b (by simp)
      have hc : c < 256 := hy c (by simp)
      have hd : d < 256 := hy d (by simp)
      simp only [base64Encode, List.cons.injEq, and_true] at h
      obtain ⟨h1, h2, h3⟩ := h
      have e1 := b64Char_inj (by omega) (by omega) h1
      have e2 := b64Char_inj (by omega) (by omega) h2
      have e3 := b64Char_inj (by omega) (by omega) h3
      have hab : a = c ∧ b = d := by omega
      rw [hab.1, hab.2]
  | [a, b], c :: d :: e :: t, hx, hy, h => by
      have he : e < 256 := hy e (by simp)
      simp only [base64Encode, List.cons.injEq] at h
      exact absurd h.2.2.2.1.symm (b64Char_ne_pad (by omega))
  | a :: b :: c :: t, [], _, _, h => by simp [base64Encode] at h
  | a :: b :: c :: t, [d], hx, hy, h => by
      have hb : b < 256 := hx b (by simp)
      have hc : c < 256 := hx c (by simp)
      simp only [base64Encode, List.cons.injEq] at h
      exact absurd h.2.2.1 (b64Char_ne_pad (by omega))
  | a :: b :: c :: t, [d, e], hx, hy, h => by
      have hc : c < 256 := hx c (by simp)
      simp only [base64Encode, List.cons.injEq] at h
      exact absurd h.2.2.2.1 (b64Char_ne_pad (by omega))
  | a :: b :: c :: t, d :: e :: f :: u, hx, hy, h => by
      have ha : a < 256 := hx a (by simp)
      have hb : b < 256 := hx b (by simp)
      have hc : c < 256 := hx c (by simp)
      have hd : d < 256 := hy d (by simp)
      have he : e < 256 := hy e (by simp)
      have hf : f < 256 := hy f (by simp)
      simp only [base64Encode, List.cons.injEq] at h
      obtain ⟨h1, h2, h3, h4, h5⟩ := h
      have e1 := b64Char_inj (by omega) (by omega) h1
      have e2 := b64Char_inj (by omega) (by omega) h2
      have e3 := b64Char_inj (by omega) (by omega) h3
      have e4 := b64Char_inj (by omega) (by omega) h4
      have habc : a = d ∧ b = e ∧ c = f := by omega
      have ht : t = u := base64Encode_inj t u
        (fun x hxm => hx x (by simp [hxm]))
        (fun y hym => hy y (by simp [hym])) h5
      rw [habc.1, habc.2.1, habc.2.2, ht]

/-- C3 counterexample: with a concrete 12-byte iv, 16-byte auth tag and
10-byte ciphertext, the browser's `makeLocalToken` output differs from the
`iv || authTag || ciphertext` envelope the server's `GET /api/qr` handler
base64-encodes — the two issuance paths do NOT share one envelope layout. -/
theorem token_envelope_counterexample :
    makeLocalToken (List.replicate 12 0) (List.replicate 10 2) (List.replicate 16 1) ≠
      serverQrToken (List.replicate 12 0) (List.replicate 16 1) (List.replicate 10 2) := by
  decide

/-- C3 amended: the server token is the base64 text encoding of
`iv || authTag || ciphertext`, while the browser token is the base64 text
encoding of `iv || ciphertext || authTag` (WebCrypto appends the tag to the
ciphertext); for 12/16/10-byte components the two paths produce different
token strings whenever `authTag ++ ciphertext ≠ ciphertext ++ authTag`. -/
theorem token_envelopes_amended (iv authTag ciphertext : List ℕ)
    (hiv : iv.length = 12) (htag : authTag.length = 16) (hct : ciphertext.length = 10)
    (hb : ∀ x ∈ iv ++ authTag ++ ciphertext, x < 256) :
    serverQrToken iv authTag ciphertext = base64Encode (iv ++ (authTag ++ ciphertext)) ∧
    makeLocalToken iv ciphertext authTag = base64Encode (iv ++ (ciphertext ++ authTag)) ∧
    (authTag ++ ciphertext ≠ ciphertext ++ authTag →
      serverQrToken iv authTag ciphertext ≠ makeLocalToken iv ciphertext authTag) := by
  refine ⟨by simp [serverQrToken, List.append_assoc], rfl, ?_⟩
  intro hne heq
  apply hne
  have h1 : ∀ x ∈ iv ++ (authTag ++ ciphertext), x < 256 := by
    intro x hx
    apply hb
    simp only [List.mem_append] at hx ⊢
    tauto
  have h2 : ∀ x ∈ iv ++ (ciphertext ++ authTag), x < 256 := by
    intro x hx
    apply hb
    simp only [List.mem_append] at hx ⊢
    tauto
  have heq' : base64Encode (iv ++ (authTag ++ ciphertext)) =
      base64Encode (iv ++ (ciphertext ++ authTag)) := by
    have hs : serverQrToken iv authTag ciphertext =
        base64Encode (iv ++ (authTag ++ ciphertext)) := by
      simp [serverQrToken, List.append_assoc]
    rw [← hs, heq]
    rfl
  have := base64Encode_inj _ _ h1 h2 heq'
  exact List.append_cancel_left this

/-- Witness for C3 (amended) at concrete 12/16/10-byte components: the
hypotheses hold and the two issuance paths produce different tokens. -/
theorem token_envelopes_amended_witness :
    (List.replicate 12 (0 : ℕ)).length = 12 ∧
    (List.replicate 16 (1 : ℕ)).length = 16 ∧
    (List.replicate 10 (2 : ℕ)).length = 10 ∧
    (∀ x ∈ List.replicate 12 (0 : ℕ) ++ List.replicate 16 (1 : ℕ) ++
      List.replicate 10 (2 : ℕ), x < 256) ∧
    List.replicate 16 (1 : ℕ) ++ List.replicate 10 (2 : ℕ) ≠
      List.replicate 10 (2 : ℕ) ++ List.replicate 16 (1 : ℕ) ∧
    serverQrToken (List.replicate 12 0) (List.replicate 16 1) (List.replicate 10 2) ≠
      makeLocalToken (List.replicate 12 0) (List.replicate 10 2) (List.replicate 16 1) :=
  ⟨by decide, by decide, by decide, by decide, by decide,
    (token_envelopes_amended (List.replicate 12 0) (List.replicate 16 1)
      (List.replicate 10 2) (by decide) (by decide) (by decide) (by decide)).2.2
      (by decide)⟩
